import Mathlib

/-!
Verification of the options pricing and strategy analytics module of
`src/backend/services/deltaExchangeService.js` (class `OptionsCalculator`).

The closed-form pricing side (`blackScholes`, `calculateGreeks`,
`calculateImpliedVolatility`) is embedded over the real numbers, since the
source computes with `Math.exp`, `Math.log`, `Math.sqrt` and the error
function from mathjs.  The strategy payoff pipeline (`calculatePayoffRange`,
`calculateStrategyPayoff`, `findBreakEvenPoints`) uses only field
operations and decimal rounding, so it is embedded computably over the
rationals.  JavaScript `Infinity` and `NaN`, which appear when `Math.min`
and `Math.max` are spread over an empty array, are modelled by the small
algebra `JSNum`.
-/

open MeasureTheory Set

/-- The error function computed by mathjs `math.erf`, used by `normalCDF`. -/
noncomputable def erf (x : ℝ) : ℝ :=
  2 / Real.sqrt Real.pi * ∫ t in (0:ℝ)..x, Real.exp (-t ^ 2)

/-- `normalCDF(x)`: `0.5 * (1 + math.erf(x / Math.sqrt(2)))`. -/
noncomputable def normalCDF (x : ℝ) : ℝ :=
  0.5 * (1 + erf (x / Real.sqrt 2))

/-- `normalPDF(x)`: `(1 / Math.sqrt(2 * Math.PI)) * Math.exp(-0.5 * x * x)`. -/
noncomputable def normalPDF (x : ℝ) : ℝ :=
  1 / Real.sqrt (2 * Real.pi) * Real.exp (-0.5 * x * x)

/-- The quantity `d1` computed identically by `blackScholes` and
`calculateGreeks` when `T > 0`. -/
noncomputable def bsD1 (S K T r sigma : ℝ) : ℝ :=
  (Real.log (S / K) + (r + 0.5 * sigma * sigma) * T) / (sigma * Real.sqrt T)

/-- The quantity `d2 = d1 - sigma * sqrt T`. -/
noncomputable def bsD2 (S K T r sigma : ℝ) : ℝ :=
  bsD1 S K T r sigma - sigma * Real.sqrt T

/-- `blackScholes(S, K, T, r, sigma, optionType)`.  The option kind is the
string compared with `=== 'call'` in the source; any other string takes the
put branch. -/
noncomputable def blackScholes (S K T r sigma : ℝ) (optionType : String) : ℝ :=
  if T ≤ 0 then
    if optionType = "call" then max 0 (S - K) else max 0 (K - S)
  else
    let d1 := bsD1 S K T r sigma
    let d2 := bsD2 S K T r sigma
    if optionType = "call" then
      S * normalCDF d1 - K * Real.exp (-r * T) * normalCDF d2
    else
      K * Real.exp (-r * T) * normalCDF (-d2) - S * normalCDF (-d1)

/-- The record returned by `calculateGreeks`. -/
structure Greeks where
  delta : ℝ
  gamma : ℝ
  theta : ℝ
  vega : ℝ
  rho : ℝ

/-- `calculateGreeks(S, K, T, r, sigma, optionType)`. -/
noncomputable def calculateGreeks (S K T r sigma : ℝ) (optionType : String) : Greeks :=
  if T ≤ 0 then
    { delta := if optionType = "call" then (if K < S then 1 else 0)
               else (if S < K then -1 else 0)
      gamma := 0, theta := 0, vega := 0, rho := 0 }
  else
    let d1 := bsD1 S K T r sigma
    let d2 := bsD2 S K T r sigma
    if optionType = "call" then
      { delta := normalCDF d1
        gamma := normalPDF d1 / (S * sigma * Real.sqrt T)
        theta := -S * normalPDF d1 * sigma / (2 * Real.sqrt T) -
                 r * K * Real.exp (-r * T) * normalCDF d2
        vega := S * Real.sqrt T * normalPDF d1
        rho := K * T * Real.exp (-r * T) * normalCDF d2 }
    else
      { delta := normalCDF d1 - 1
        gamma := normalPDF d1 / (S * sigma * Real.sqrt T)
        theta := -S * normalPDF d1 * sigma / (2 * Real.sqrt T) +
                 r * K * Real.exp (-r * T) * normalCDF (-d2)
        vega := S * Real.sqrt T * normalPDF d1
        rho := -K * T * Real.exp (-r * T) * normalCDF (-d2) }

/-- The Newton-Raphson loop inside `calculateImpliedVolatility`, with the
remaining iteration count (`maxIterations - iteration`) as fuel.  Each
round: converged when `|marketPrice - price| < tolerance`; bail out with
the null sentinel when `|vega| < 1e-10`; otherwise update
`sigma <- max(0.001, sigma + diff / vega)`. -/
noncomputable def nrLoop (S K T r marketPrice : ℝ) (optionType : String)
    (tolerance : ℝ) : ℕ → ℝ → Option ℝ
  | 0, _ => none
  | n + 1, sigma =>
    let price := blackScholes S K T r sigma optionType
    let diff := marketPrice - price
    if |diff| < tolerance then some sigma
    else
      let vega := (calculateGreeks S K T r sigma optionType).vega
      if |vega| < 1e-10 then none
      else nrLoop S K T r marketPrice optionType tolerance n (max 0.001 (sigma + diff / vega))

/-- `calculateImpliedVolatility(S, K, T, r, marketPrice, optionType,
maxIterations, tolerance)`; the initial guess is `sigma = 0.5` and the
defaults at the call sites are `maxIterations = 100`, `tolerance = 1e-5`.
`none` models the `null` return. -/
noncomputable def calculateImpliedVolatility (S K T r marketPrice : ℝ)
    (optionType : String) (maxIterations : ℕ) (tolerance : ℝ) : Option ℝ :=
  if T ≤ 0 then
    let intrinsic := if optionType = "call" then max 0 (S - K) else max 0 (K - S)
    if intrinsic = marketPrice then some 0 else none
  else
    nrLoop S K T r marketPrice optionType tolerance maxIterations 0.5

/-- C1: whenever the time-to-expiry is at most 0, `blackScholes` returns the
intrinsic value: `max 0 (S - K)` for a call and `max 0 (K - S)` for a put. -/
theorem C1_blackScholes_expiry_intrinsic (S K T r sigma : ℝ) (hT : T ≤ 0) :
    blackScholes S K T r sigma "call" = max 0 (S - K) ∧
      blackScholes S K T r sigma "put" = max 0 (K - S) := by
  constructor <;> simp [blackScholes, hT]

/-- C1 witness at `S = 3`, `K = 1`, `T = 0`. -/
theorem C1_blackScholes_expiry_intrinsic_witness :
    blackScholes 3 1 0 0.05 0.5 "call" = max 0 (3 - 1) ∧
      blackScholes 3 1 0 0.05 0.5 "put" = max 0 (1 - 3) :=
  C1_blackScholes_expiry_intrinsic 3 1 0 0.05 0.5 le_rfl

/-! ### Facts about the Gaussian integrand and the error function -/

theorem gauss_continuous : Continuous fun t : ℝ => Real.exp (-t ^ 2) := by
  fun_prop

theorem gauss_integrable : Integrable fun t : ℝ => Real.exp (-t ^ 2) := by
  simpa using integrable_exp_neg_mul_sq (b := 1) one_pos

theorem gauss_intervalIntegrable (a b : ℝ) :
    IntervalIntegrable (fun t : ℝ => Real.exp (-t ^ 2)) volume a b :=
  gauss_continuous.intervalIntegrable a b

theorem gauss_integrableOn_Ioi (a : ℝ) :
    IntegrableOn (fun t : ℝ => Real.exp (-t ^ 2)) (Ioi a) :=
  gauss_integrable.integrableOn

theorem gauss_integral_Ioi_zero :
    ∫ t in Ioi (0:ℝ), Real.exp (-t ^ 2) = Real.sqrt Real.pi / 2 := by
  simpa using integral_gaussian_Ioi 1

theorem gauss_split (a b : ℝ) (h : a ≤ b) :
    ∫ t in Ioi a, Real.exp (-t ^ 2) =
      (∫ t in Ioc a b, Real.exp (-t ^ 2)) + ∫ t in Ioi b, Real.exp (-t ^ 2) := by
  rw [← Ioc_union_Ioi_eq_Ioi h,
    setIntegral_union (Ioc_disjoint_Ioi le_rfl) measurableSet_Ioi
      (gauss_integrable.integrableOn) (gauss_integrableOn_Ioi b)]

theorem gauss_Ioi_pos (a : ℝ) : 0 < ∫ t in Ioi a, Real.exp (-t ^ 2) := by
  have h1 : 0 < ∫ t in a..(a + 1), Real.exp (-t ^ 2) :=
    intervalIntegral.intervalIntegral_pos_of_pos (gauss_intervalIntegrable a (a + 1))
      (fun x => Real.exp_pos _) (by linarith)
  have h2 := gauss_split a (a + 1) (by linarith)
  have h3 : ∫ t in a..(a + 1), Real.exp (-t ^ 2) = ∫ t in Ioc a (a + 1), Real.exp (-t ^ 2) :=
    intervalIntegral.integral_of_le (by linarith)
  have h4 : 0 ≤ ∫ t in Ioi (a + 1), Real.exp (-t ^ 2) :=
    setIntegral_nonneg measurableSet_Ioi fun x _ => (Real.exp_pos _).le
  rw [h3] at h1
  linarith

theorem gauss_interval_nonneg (x : ℝ) (hx : 0 ≤ x) :
    0 ≤ ∫ t in (0:ℝ)..x, Real.exp (-t ^ 2) :=
  intervalIntegral.integral_nonneg hx fun t _ => (Real.exp_pos _).le

theorem gauss_interval_lt (x : ℝ) (hx : 0 ≤ x) :
    ∫ t in (0:ℝ)..x, Real.exp (-t ^ 2) < Real.sqrt Real.pi / 2 := by
  rw [intervalIntegral.integral_of_le hx]
  have h1 := gauss_split 0 x hx
  have h2 := gauss_Ioi_pos x
  rw [gauss_integral_Ioi_zero] at h1
  linarith

theorem gauss_interval_neg (x : ℝ) :
    ∫ t in (0:ℝ)..(-x), Real.exp (-t ^ 2) = -∫ t in (0:ℝ)..x, Real.exp (-t ^ 2) := by
  have h : ∀ y : ℝ, ∫ t in (0:ℝ)..y, Real.exp (-t ^ 2)
      = ∫ t in (-y)..(0:ℝ), Real.exp (-t ^ 2) := by
    intro y
    have := intervalIntegral.integral_comp_neg (a := (0:ℝ)) (b := y)
      (f := fun t : ℝ => Real.exp (-t ^ 2))
    simpa [neg_sq] using this
  rw [h (-x), neg_neg, intervalIntegral.integral_symm]

theorem sqrt_pi_pos : 0 < Real.sqrt Real.pi := Real.sqrt_pos.mpr Real.pi_pos

theorem erf_neg (x : ℝ) : erf (-x) = -erf x := by
  unfold erf
  rw [gauss_interval_neg]
  ring

theorem erf_lt_one (x : ℝ) : erf x < 1 := by
  rcases le_or_lt 0 x with hx | hx
  · have h1 := gauss_interval_lt x hx
    have h2 : 2 / Real.sqrt Real.pi > 0 := by positivity
    have h3 : erf x < 2 / Real.sqrt Real.pi * (Real.sqrt Real.pi / 2) := by
      unfold erf
      exact mul_lt_mul_of_pos_left h1 h2
    have h4 : 2 / Real.sqrt Real.pi * (Real.sqrt Real.pi / 2) = 1 := by
      field_simp
    linarith
  · have h1 : 0 ≤ erf (-x) := by
      unfold erf
      have := gauss_interval_nonneg (-x) (by linarith)
      positivity
    rw [erf_neg] at h1
    linarith

theorem neg_one_lt_erf (x : ℝ) : -1 < erf x := by
  have := erf_lt_one (-x)
  rw [erf_neg] at this
  linarith

theorem normalCDF_pos (x : ℝ) : 0 < normalCDF x := by
  have := neg_one_lt_erf (x / Real.sqrt 2)
  unfold normalCDF
  nlinarith

theorem normalCDF_lt_one (x : ℝ) : normalCDF x < 1 := by
  have := erf_lt_one (x / Real.sqrt 2)
  unfold normalCDF
  nlinarith

theorem normalCDF_add_neg (x : ℝ) : normalCDF x + normalCDF (-x) = 1 := by
  unfold normalCDF
  rw [neg_div, erf_neg]
  ring

theorem normalPDF_pos (x : ℝ) : 0 < normalPDF x := by
  unfold normalPDF
  positivity

theorem blackScholes_call_of_pos (S K T r sigma : ℝ) (hT : 0 < T) :
    blackScholes S K T r sigma "call" =
      S * normalCDF (bsD1 S K T r sigma) -
        K * Real.exp (-r * T) * normalCDF (bsD2 S K T r sigma) := by
  simp [blackScholes, not_le.mpr hT]

theorem blackScholes_put_of_pos (S K T r sigma : ℝ) (hT : 0 < T) :
    blackScholes S K T r sigma "put" =
      K * Real.exp (-r * T) * normalCDF (-bsD2 S K T r sigma) -
        S * normalCDF (-bsD1 S K T r sigma) := by
  simp [blackScholes, not_le.mpr hT]

theorem calculateGreeks_call_of_pos (S K T r sigma : ℝ) (hT : 0 < T) :
    calculateGreeks S K T r sigma "call" =
      { delta := normalCDF (bsD1 S K T r sigma)
        gamma := normalPDF (bsD1 S K T r sigma) / (S * sigma * Real.sqrt T)
        theta := -S * normalPDF (bsD1 S K T r sigma) * sigma / (2 * Real.sqrt T) -
                 r * K * Real.exp (-r * T) * normalCDF (bsD2 S K T r sigma)
        vega := S * Real.sqrt T * normalPDF (bsD1 S K T r sigma)
        rho := K * T * Real.exp (-r * T) * normalCDF (bsD2 S K T r sigma) } := by
  simp [calculateGreeks, not_le.mpr hT]

theorem calculateGreeks_put_of_pos (S K T r sigma : ℝ) (hT : 0 < T) :
    calculateGreeks S K T r sigma "put" =
      { delta := normalCDF (bsD1 S K T r sigma) - 1
        gamma := normalPDF (bsD1 S K T r sigma) / (S * sigma * Real.sqrt T)
        theta := -S * normalPDF (bsD1 S K T r sigma) * sigma / (2 * Real.sqrt T) +
                 r * K * Real.exp (-r * T) * normalCDF (-bsD2 S K T r sigma)
        vega := S * Real.sqrt T * normalPDF (bsD1 S K T r sigma)
        rho := -K * T * Real.exp (-r * T) * normalCDF (-bsD2 S K T r sigma) } := by
  simp [calculateGreeks, not_le.mpr hT]

/-- C2: put-call parity.  For positive spot, strike, expiry and volatility the
call and put prices satisfy
`call - put = S - K * exp (-r * T)` up to an absolute tolerance of `1e-6`
(over the reals the identity is exact, so the tolerance is trivially met). -/
theorem C2_put_call_parity (S K T r sigma : ℝ) (hS : 0 < S) (hK : 0 < K)
    (hT : 0 < T) (hsigma : 0 < sigma) :
    |blackScholes S K T r sigma "call" - blackScholes S K T r sigma "put" -
      (S - K * Real.exp (-r * T))| ≤ 1e-6 := by
  have h1 := normalCDF_add_neg (bsD1 S K T r sigma)
  have h2 := normalCDF_add_neg (bsD2 S K T r sigma)
  have hz : blackScholes S K T r sigma "call" - blackScholes S K T r sigma "put" -
      (S - K * Real.exp (-r * T)) = 0 := by
    rw [blackScholes_call_of_pos S K T r sigma hT, blackScholes_put_of_pos S K T r sigma hT]
    linear_combination S * h1 - K * Real.exp (-r * T) * h2
  rw [hz]
  norm_num

/-- C2 witness at `S = 100`, `K = 90`, `T = 1`, `r = 0.05`, `sigma = 0.2`. -/
theorem C2_put_call_parity_witness :
    |blackScholes 100 90 1 0.05 0.2 "call" - blackScholes 100 90 1 0.05 0.2 "put" -
      (100 - 90 * Real.exp (-0.05 * 1))| ≤ 1e-6 :=
  C2_put_call_parity 100 90 1 0.05 0.2 (by norm_num) (by norm_num) (by norm_num) (by norm_num)

/-- C3: for positive spot, strike, expiry, volatility and a non-negative rate,
`calculateGreeks` gives a call delta strictly inside `(0, 1)`, a put delta
strictly inside `(-1, 0)`, and non-negative gamma and vega that coincide
between the call and the put at the same inputs. -/
theorem C3_greeks_sane (S K T r sigma : ℝ) (hS : 0 < S) (hK : 0 < K)
    (hT : 0 < T) (hr : 0 ≤ r) (hsigma : 0 < sigma) :
    (0 < (calculateGreeks S K T r sigma "call").delta ∧
        (calculateGreeks S K T r sigma "call").delta < 1) ∧
      (-1 < (calculateGreeks S K T r sigma "put").delta ∧
        (calculateGreeks S K T r sigma "put").delta < 0) ∧
      0 ≤ (calculateGreeks S K T r sigma "call").gamma ∧
      (calculateGreeks S K T r sigma "call").gamma =
        (calculateGreeks S K T r sigma "put").gamma ∧
      0 ≤ (calculateGreeks S K T r sigma "call").vega ∧
      (calculateGreeks S K T r sigma "call").vega =
        (calculateGreeks S K T r sigma "put").vega := by
  have hc := calculateGreeks_call_of_pos S K T r sigma hT
  have hp := calculateGreeks_put_of_pos S K T r sigma hT
  have hcdf1 := normalCDF_pos (bsD1 S K T r sigma)
  have hcdf2 := normalCDF_lt_one (bsD1 S K T r sigma)
  have hpdf := normalPDF_pos (bsD1 S K T r sigma)
  have hsq : 0 < Real.sqrt T := Real.sqrt_pos.mpr hT
  rw [hc, hp]
  refine ⟨⟨hcdf1, hcdf2⟩, ⟨by simpa using hcdf1, by simpa using hcdf2⟩, ?_, rfl, ?_, rfl⟩
  · positivity
  · positivity

/-- C3 witness at `S = 100`, `K = 90`, `T = 1`, `r = 0.05`, `sigma = 0.2`. -/
theorem C3_greeks_sane_witness :
    (0 < (calculateGreeks 100 90 1 0.05 0.2 "call").delta ∧
        (calculateGreeks 100 90 1 0.05 0.2 "call").delta < 1) ∧
      (-1 < (calculateGreeks 100 90 1 0.05 0.2 "put").delta ∧
        (calculateGreeks 100 90 1 0.05 0.2 "put").delta < 0) ∧
      0 ≤ (calculateGreeks 100 90 1 0.05 0.2 "call").gamma ∧
      (calculateGreeks 100 90 1 0.05 0.2 "call").gamma =
        (calculateGreeks 100 90 1 0.05 0.2 "put").gamma ∧
      0 ≤ (calculateGreeks 100 90 1 0.05 0.2 "call").vega ∧
      (calculateGreeks 100 90 1 0.05 0.2 "call").vega =
        (calculateGreeks 100 90 1 0.05 0.2 "put").vega :=
  C3_greeks_sane 100 90 1 0.05 0.2 (by norm_num) (by norm_num) (by norm_num)
    (by norm_num) (by norm_num)

/-- The exact failure condition of the Newton-Raphson loop with the given
remaining iteration budget and current iterate: either the budget is
exhausted without meeting the tolerance, or at an iterate reached before
converging the vega magnitude drops below `1e-10`. -/
def nrDiverges (S K T r marketPrice : ℝ) (optionType : String)
    (tolerance : ℝ) : ℕ → ℝ → Prop
  | 0, _ => True
  | n + 1, sigma =>
    let price := blackScholes S K T r sigma optionType
    let diff := marketPrice - price
    let vega := (calculateGreeks S K T r sigma optionType).vega
    ¬(|diff| < tolerance) ∧
      (|vega| < 1e-10 ∨
        nrDiverges S K T r marketPrice optionType tolerance n
          (max 0.001 (sigma + diff / vega)))

theorem nrLoop_some_sound (S K T r marketPrice tolerance : ℝ) (optionType : String) :
    ∀ (n : ℕ) (sigma v : ℝ),
      nrLoop S K T r marketPrice optionType tolerance n sigma = some v →
      |marketPrice - blackScholes S K T r v optionType| < tolerance := by
  intro n
  induction n with
  | zero => intro sigma v h; simp [nrLoop] at h
  | succ n ih =>
    intro sigma v h
    simp only [nrLoop] at h
    split_ifs at h with h1 h2
    all_goals try exact ih _ v h
    all_goals try exact Option.noConfusion h
    injection h with h'
    subst h'
    exact h1

theorem nrLoop_none_iff (S K T r marketPrice tolerance : ℝ) (optionType : String) :
    ∀ (n : ℕ) (sigma : ℝ),
      nrLoop S K T r marketPrice optionType tolerance n sigma = none ↔
        nrDiverges S K T r marketPrice optionType tolerance n sigma := by
  intro n
  induction n with
  | zero => intro sigma; simp [nrLoop, nrDiverges]
  | succ n ih =>
    intro sigma
    simp only [nrLoop, nrDiverges]
    split_ifs with h1 h2
    · simp [h1]
    · simp [h1, h2]
    · simp [h1, h2, ih]

/-- C4: for `T > 0`, `calculateImpliedVolatility` returns a numeric result
`v` only when the Black-Scholes price at `v` matches the market price within
the tolerance, and it returns the `null` sentinel exactly when the
Newton-Raphson iteration, started at `sigma = 0.5` with the update
`sigma <- max(0.001, sigma + (marketPrice - price) / vega)`, either reaches
an iterate with vega magnitude below `1e-10` before converging or exhausts
all `maxIterations` rounds without meeting the tolerance.  (The embedding is
a total function, so no exception is ever thrown.) -/
theorem C4_impliedVol_result_characterisation (S K T r marketPrice tolerance : ℝ)
    (optionType : String) (maxIterations : ℕ) (hT : 0 < T) :
    (∀ v, calculateImpliedVolatility S K T r marketPrice optionType
          maxIterations tolerance = some v →
        |marketPrice - blackScholes S K T r v optionType| < tolerance) ∧
      (calculateImpliedVolatility S K T r marketPrice optionType
          maxIterations tolerance = none ↔
        nrDiverges S K T r marketPrice optionType tolerance maxIterations 0.5) := by
  have h : calculateImpliedVolatility S K T r marketPrice optionType
      maxIterations tolerance =
      nrLoop S K T r marketPrice optionType tolerance maxIterations 0.5 := by
    simp [calculateImpliedVolatility, not_le.mpr hT]
  rw [h]
  exact ⟨fun v => nrLoop_some_sound S K T r marketPrice tolerance optionType maxIterations 0.5 v,
    nrLoop_none_iff S K T r marketPrice tolerance optionType maxIterations 0.5⟩

/-- C4 witness at `S = K = T = 1`, `r = 0`, `marketPrice = 0`, the default
iteration cap and tolerance. -/
theorem C4_impliedVol_result_characterisation_witness :
    calculateImpliedVolatility 1 1 1 0 0 "call" 100 1e-5 = none ↔
      nrDiverges 1 1 1 0 0 "call" 1e-5 100 0.5 :=
  (C4_impliedVol_result_characterisation 1 1 1 0 0 1e-5 "call" 100 zero_lt_one).2

/-! ### Tail bounds for the normal CDF, used to refute the implied-volatility
round-trip claim on a deep out-of-the-money input -/

theorem one_sub_erf (y : ℝ) (hy : 0 ≤ y) :
    1 - erf y = 2 / Real.sqrt Real.pi * ∫ t in Ioi y, Real.exp (-t ^ 2) := by
  have hsplit := gauss_split 0 y hy
  rw [gauss_integral_Ioi_zero] at hsplit
  have key : (∫ t in Ioi y, Real.exp (-t ^ 2)) =
      Real.sqrt Real.pi / 2 - ∫ t in Ioc 0 y, Real.exp (-t ^ 2) := by
    linarith
  rw [key]
  unfold erf
  rw [intervalIntegral.integral_of_le hy]
  have hpi : Real.sqrt Real.pi ≠ 0 := sqrt_pi_pos.ne'
  field_simp
  ring

theorem integral_x_gauss_Ioi (y : ℝ) :
    ∫ t in Ioi y, t * Real.exp (-t ^ 2) = Real.exp (-y ^ 2) / 2 := by
  have hderiv : ∀ x ∈ Ici y, HasDerivAt (fun t : ℝ => -(Real.exp (-t ^ 2) / 2))
      (x * Real.exp (-x ^ 2)) x := by
    intro x _
    have h1 : HasDerivAt (fun t : ℝ => -t ^ 2) (-(2 * x)) x := by
      simpa using (hasDerivAt_pow 2 x).neg
    have h2 : HasDerivAt (fun t : ℝ => Real.exp (-t ^ 2))
        (Real.exp (-x ^ 2) * -(2 * x)) x := h1.exp
    have h3 := (h2.div_const 2).neg
    convert h3 using 1
    ring
  have hint : IntegrableOn (fun t : ℝ => t * Real.exp (-t ^ 2)) (Ioi y) := by
    have := integrable_mul_exp_neg_mul_sq (b := 1) one_pos
    simpa using this.integrableOn
  have htend : Filter.Tendsto (fun t : ℝ => -(Real.exp (-t ^ 2) / 2))
      Filter.atTop (nhds 0) := by
    have h1 : Filter.Tendsto (fun t : ℝ => t ^ 2) Filter.atTop Filter.atTop :=
      Filter.tendsto_pow_atTop two_ne_zero
    have h2 : Filter.Tendsto (fun t : ℝ => -t ^ 2) Filter.atTop Filter.atBot :=
      Filter.tendsto_neg_atBot_iff.mpr h1
    have h3 : Filter.Tendsto (fun t : ℝ => Real.exp (-t ^ 2)) Filter.atTop (nhds 0) :=
      Real.tendsto_exp_atBot.comp h2
    simpa using (h3.div_const 2).neg
  rw [integral_Ioi_of_hasDerivAt_of_tendsto' hderiv hint htend]
  ring

theorem gauss_Ioi_le_half_exp (y : ℝ) (hy : 1 ≤ y) :
    (∫ t in Ioi y, Real.exp (-t ^ 2)) ≤ Real.exp (-y ^ 2) / 2 := by
  have hint : IntegrableOn (fun t : ℝ => t * Real.exp (-t ^ 2)) (Ioi y) := by
    have := integrable_mul_exp_neg_mul_sq (b := 1) one_pos
    simpa using this.integrableOn
  have hmono : (∫ t in Ioi y, Real.exp (-t ^ 2)) ≤ ∫ t in Ioi y, t * Real.exp (-t ^ 2) := by
    refine setIntegral_mono_on (gauss_integrableOn_Ioi y) hint measurableSet_Ioi ?_
    intro x hx
    have hx1 : 1 ≤ x := le_trans hy (mem_Ioi.mp hx).le
    nlinarith [Real.exp_pos (-x ^ 2)]
  rw [integral_x_gauss_Ioi] at hmono
  exact hmono

theorem normalCDF_le_exp_neg_half_sq (x : ℝ) (hx : x ≤ -2) :
    normalCDF x ≤ Real.exp (-x ^ 2 / 2) := by
  set y := -x / Real.sqrt 2 with hydef
  have hs2 : (0:ℝ) < Real.sqrt 2 := Real.sqrt_pos.mpr (by norm_num)
  have hsq2 : Real.sqrt 2 ^ 2 = 2 := Real.sq_sqrt (by norm_num)
  have hy1 : 1 ≤ y := by
    rw [hydef, le_div_iff hs2]
    nlinarith
  have hy0 : (0:ℝ) ≤ y := le_trans zero_le_one hy1
  have hxy : x / Real.sqrt 2 = -y := by rw [hydef]; ring
  have hyx : y ^ 2 = x ^ 2 / 2 := by
    rw [hydef, div_pow, neg_sq, hsq2]
  have h1 : normalCDF x = 1 / Real.sqrt Real.pi * ∫ t in Ioi y, Real.exp (-t ^ 2) := by
    unfold normalCDF
    rw [hxy, erf_neg]
    linear_combination (1/2) * one_sub_erf y hy0
  rw [h1]
  have h2 := gauss_Ioi_le_half_exp y hy1
  have hpi1 : (1:ℝ) ≤ Real.sqrt Real.pi :=
    Real.one_le_sqrt.mpr (by linarith [Real.pi_gt_three])
  calc 1 / Real.sqrt Real.pi * ∫ t in Ioi y, Real.exp (-t ^ 2)
      ≤ 1 / Real.sqrt Real.pi * (Real.exp (-y ^ 2) / 2) :=
        mul_le_mul_of_nonneg_left h2 (by positivity)
    _ ≤ Real.exp (-y ^ 2) := by
        have hrw : 1 / Real.sqrt Real.pi * (Real.exp (-y ^ 2) / 2) =
            Real.exp (-y ^ 2) / (2 * Real.sqrt Real.pi) := by ring
        rw [hrw]
        exact div_le_self (Real.exp_pos _).le (by linarith)
    _ = Real.exp (-x ^ 2 / 2) := by
        congr 1
        rw [hyx]
        ring

theorem log_hundred_gt_four : (4:ℝ) < Real.log 100 := by
  rw [Real.lt_log_iff_exp_lt (by norm_num : (0:ℝ) < 100)]
  have h1 : Real.exp 4 = Real.exp 1 ^ 4 := by
    rw [← Real.exp_nat_mul]
    norm_num
  rw [h1]
  calc Real.exp 1 ^ 4 < 2.7182818286 ^ 4 :=
        pow_lt_pow_left Real.exp_one_lt_d9 (Real.exp_pos 1).le (by norm_num)
    _ < 100 := by norm_num


theorem sqrt_T_cex : Real.sqrt (1/10000 : ℝ) = 1/100 := by
  rw [show (1/10000 : ℝ) = (1/100) ^ 2 by norm_num, Real.sqrt_sq (by norm_num)]

theorem log_cex : Real.log ((1:ℝ) / 100) = -Real.log 100 := by
  rw [one_div, Real.log_inv]

theorem bsD1_cex_tenth : bsD1 1 100 (1/10000) 0 (1/10) ≤ -799 := by
  unfold bsD1
  rw [sqrt_T_cex, log_cex]
  rw [div_le_iff (by norm_num : (0:ℝ) < (1/10) * (1/100))]
  have h4 := log_hundred_gt_four
  linarith

theorem bsD2_cex_tenth : bsD2 1 100 (1/10000) 0 (1/10) ≤ -799 := by
  unfold bsD2
  rw [sqrt_T_cex]
  have := bsD1_cex_tenth
  linarith

theorem bsD1_cex_half : bsD1 1 100 (1/10000) 0 0.5 ≤ -799 := by
  unfold bsD1
  rw [sqrt_T_cex, log_cex]
  rw [div_le_iff (by norm_num : (0:ℝ) < 0.5 * (1/100))]
  have h4 := log_hundred_gt_four
  linarith

theorem bsD2_cex_half : bsD2 1 100 (1/10000) 0 0.5 ≤ -799 := by
  unfold bsD2
  rw [sqrt_T_cex]
  have := bsD1_cex_half
  linarith

theorem abs_bs_call_le (S K T r sigma : ℝ) (hT : 0 < T) (hS : 0 ≤ S) (hK : 0 ≤ K) :
    |blackScholes S K T r sigma "call"| ≤
      S * normalCDF (bsD1 S K T r sigma) +
        K * Real.exp (-r * T) * normalCDF (bsD2 S K T r sigma) := by
  rw [blackScholes_call_of_pos S K T r sigma hT]
  have h1 : 0 ≤ S * normalCDF (bsD1 S K T r sigma) :=
    mul_nonneg hS (normalCDF_pos _).le
  have h2 : 0 ≤ K * Real.exp (-r * T) * normalCDF (bsD2 S K T r sigma) :=
    mul_nonneg (mul_nonneg hK (Real.exp_pos _).le) (normalCDF_pos _).le
  calc |S * normalCDF (bsD1 S K T r sigma) -
        K * Real.exp (-r * T) * normalCDF (bsD2 S K T r sigma)|
      ≤ |S * normalCDF (bsD1 S K T r sigma)| +
        |K * Real.exp (-r * T) * normalCDF (bsD2 S K T r sigma)| := abs_sub _ _
    _ = S * normalCDF (bsD1 S K T r sigma) +
        K * Real.exp (-r * T) * normalCDF (bsD2 S K T r sigma) := by
        rw [abs_of_nonneg h1, abs_of_nonneg h2]

theorem normalCDF_le_E (d : ℝ) (hd : d ≤ -799) :
    normalCDF d ≤ Real.exp (-(638401/2 : ℝ)) := by
  have h1 := normalCDF_le_exp_neg_half_sq d (by linarith)
  have h2 : -d ^ 2 / 2 ≤ -(638401/2 : ℝ) := by nlinarith
  exact h1.trans (Real.exp_le_exp.mpr h2)

theorem abs_bs_cex (sigma : ℝ) (h1 : bsD1 1 100 (1/10000) 0 sigma ≤ -799)
    (h2 : bsD2 1 100 (1/10000) 0 sigma ≤ -799) :
    |blackScholes 1 100 (1/10000) 0 sigma "call"| ≤
      101 * Real.exp (-(638401/2 : ℝ)) := by
  have h := abs_bs_call_le 1 100 (1/10000) 0 sigma (by norm_num) (by norm_num) (by norm_num)
  have e1 := normalCDF_le_E _ h1
  have e2 := normalCDF_le_E _ h2
  have hexp : Real.exp (-0 * (1/10000 : ℝ)) = 1 := by norm_num
  rw [hexp] at h
  have hcdf1 := (normalCDF_pos (bsD1 1 100 (1/10000) 0 sigma)).le
  have hcdf2 := (normalCDF_pos (bsD2 1 100 (1/10000) 0 sigma)).le
  linarith

theorem exp_big_small : 202 * Real.exp (-(638401/2 : ℝ)) < 1e-5 := by
  have h1 : (638401:ℝ)/4 + 1 ≤ Real.exp ((638401:ℝ)/4) := Real.add_one_le_exp _
  have h2 : Real.exp ((638401:ℝ)/2) = Real.exp ((638401:ℝ)/4) * Real.exp ((638401:ℝ)/4) := by
    rw [← Real.exp_add]
    norm_num
  have h3 : ((638401:ℝ)/4 + 1) * ((638401:ℝ)/4 + 1) ≤ Real.exp ((638401:ℝ)/2) := by
    rw [h2]
    have hp : (0:ℝ) < (638401:ℝ)/4 + 1 := by norm_num
    nlinarith
  have h5 : Real.exp (-(638401/2 : ℝ)) ≤ (((638401:ℝ)/4 + 1) * ((638401:ℝ)/4 + 1))⁻¹ := by
    rw [Real.exp_neg]
    exact inv_le_inv_of_le (by positivity) h3
  calc 202 * Real.exp (-(638401/2 : ℝ))
      ≤ 202 * (((638401:ℝ)/4 + 1) * ((638401:ℝ)/4 + 1))⁻¹ :=
        mul_le_mul_of_nonneg_left h5 (by norm_num)
    _ < 1e-5 := by norm_num

theorem cex_first_iter :
    |blackScholes 1 100 (1/10000) 0 (1/10) "call" -
      blackScholes 1 100 (1/10000) 0 0.5 "call"| < 1e-5 := by
  have a1 := abs_bs_cex (1/10) bsD1_cex_tenth bsD2_cex_tenth
  have a2 := abs_bs_cex 0.5 bsD1_cex_half bsD2_cex_half
  have h := abs_sub (blackScholes 1 100 (1/10000) 0 (1/10) "call")
    (blackScholes 1 100 (1/10000) 0 0.5 "call")
  have hbig := exp_big_small
  linarith

theorem nrLoop_converged (S K T r marketPrice : ℝ) (optionType : String)
    (tolerance : ℝ) (n : ℕ) (sigma : ℝ)
    (h : |marketPrice - blackScholes S K T r sigma optionType| < tolerance) :
    nrLoop S K T r marketPrice optionType tolerance (n + 1) sigma = some sigma := by
  simp only [nrLoop]
  rw [if_pos h]

/-- C5 counterexample: at `S = 1`, `K = 100`, `T = 1/10000`, `r = 0` and
`sigma = 1/10` (inside the claimed range `[0.1, 2]`), the Black-Scholes
prices at `sigma = 1/10` and at the initial Newton-Raphson guess
`sigma = 0.5` differ by far less than the `1e-5` tolerance, so
`calculateImpliedVolatility` returns `0.5` on its first iteration — not a
value within `1e-4` of the original volatility `1/10`. -/
theorem C5_impliedVol_roundtrip_counterexample :
    calculateImpliedVolatility 1 100 (1/10000) 0
        (blackScholes 1 100 (1/10000) 0 (1/10) "call") "call" 100 1e-5 = some 0.5 ∧
      ¬ |(0.5 : ℝ) - 1/10| ≤ 1e-4 := by
  constructor
  · rw [calculateImpliedVolatility, if_neg (by norm_num : ¬ ((1:ℝ)/10000 ≤ 0))]
    rw [show (100:ℕ) = 99 + 1 from rfl]
    exact nrLoop_converged 1 100 (1/10000) 0 _ "call" 1e-5 99 0.5 cex_first_iter
  · rw [abs_of_nonneg (by norm_num : (0:ℝ) ≤ 0.5 - 1/10)]
    norm_num

/-- C5 amended: for `T > 0`, whenever the round-trip
`calculateImpliedVolatility(S, K, T, r, blackScholes(S,K,T,r,sigma,kind), kind)`
returns a numeric value `v` (it may instead return the `null` sentinel), the
Black-Scholes price at `v` reproduces the price at `sigma` within the `1e-5`
price tolerance; the recovered `v` itself need not be within `1e-4` of
`sigma`. -/
theorem C5_impliedVol_roundtrip_amended (S K T r sigma v : ℝ) (optionType : String)
    (hT : 0 < T)
    (h : calculateImpliedVolatility S K T r (blackScholes S K T r sigma optionType)
        optionType 100 1e-5 = some v) :
    |blackScholes S K T r sigma optionType - blackScholes S K T r v optionType| < 1e-5 := by
  have h2 : calculateImpliedVolatility S K T r (blackScholes S K T r sigma optionType)
      optionType 100 1e-5 =
      nrLoop S K T r (blackScholes S K T r sigma optionType) optionType 1e-5 100 0.5 := by
    simp [calculateImpliedVolatility, not_le.mpr hT]
  rw [h2] at h
  exact nrLoop_some_sound S K T r _ 1e-5 optionType 100 0.5 v h

/-- C5 amended witness at `S = K = T = 1`, `r = 0`, `sigma = 0.5`: the
round-trip returns `0.5` and the price at the returned volatility matches
the input price within tolerance. -/
theorem C5_impliedVol_roundtrip_amended_witness :
    |blackScholes 1 1 1 0 0.5 "call" - blackScholes 1 1 1 0 0.5 "call"| < 1e-5 := by
  apply C5_impliedVol_roundtrip_amended 1 1 1 0 0.5 0.5 "call" zero_lt_one
  rw [calculateImpliedVolatility, if_neg (by norm_num : ¬ ((1:ℝ) ≤ 0))]
  rw [show (100:ℕ) = 99 + 1 from rfl]
  apply nrLoop_converged
  rw [sub_self, abs_zero]
  norm_num

/-! ### The strategy payoff pipeline, over the rationals -/

/-- JavaScript numbers as needed by the strategy pipeline: a finite value,
the two infinities produced by `Math.min()`/`Math.max()` on empty arrays,
and `NaN`. -/
inductive JSNum where
  | nan : JSNum
  | negInf : JSNum
  | fin (q : ℚ) : JSNum
  | posInf : JSNum
deriving DecidableEq

/-- JavaScript `Math.min` on two values. -/
def jsMin : JSNum → JSNum → JSNum
  | .nan, _ => .nan
  | _, .nan => .nan
  | .negInf, _ => .negInf
  | _, .negInf => .negInf
  | .posInf, b => b
  | a, .posInf => a
  | .fin a, .fin b => .fin (min a b)

/-- JavaScript `Math.max` on two values. -/
def jsMax : JSNum → JSNum → JSNum
  | .nan, _ => .nan
  | _, .nan => .nan
  | .posInf, _ => .posInf
  | _, .posInf => .posInf
  | .negInf, b => b
  | a, .negInf => a
  | .fin a, .fin b => .fin (max a b)

/-- JavaScript subtraction on such values. -/
def jsSub : JSNum → JSNum → JSNum
  | .nan, _ => .nan
  | _, .nan => .nan
  | .posInf, .posInf => .nan
  | .posInf, _ => .posInf
  | .negInf, .negInf => .nan
  | .negInf, _ => .negInf
  | .fin _, .posInf => .negInf
  | .fin _, .negInf => .posInf
  | .fin a, .fin b => .fin (a - b)

/-- `Math.min(...values)`: fold of `Math.min` with empty result `Infinity`. -/
def jsMinList (l : List ℚ) : JSNum :=
  l.foldl (fun a q => jsMin a (.fin q)) .posInf

/-- `Math.max(...values)`: fold of `Math.max` with empty result `-Infinity`. -/
def jsMaxList (l : List ℚ) : JSNum :=
  l.foldl (fun a q => jsMax a (.fin q)) .negInf

/-- The option fields used by the pipeline.  `lastPrice` and
`impliedVolatility` are optional because the source reads them through the
falsy-coalescing `||` operator. -/
structure OptionInfo where
  contractType : String
  strikePrice : ℚ
  expirationDate : ℚ
  lastPrice : Option ℚ
  impliedVolatility : Option ℚ

/-- One strategy leg: an option, a quantity and the `buy`/`sell` action. -/
structure Leg where
  option : OptionInfo
  quantity : ℚ
  action : String

/-- A strategy is its list of legs. -/
structure Strategy where
  legs : List Leg

/-- `Math.round(price * 100) / 100`; JavaScript `Math.round` is
`floor(x + 0.5)` (halves round toward positive infinity). -/
def round2 (q : ℚ) : ℚ :=
  (⌊q * 100 + 1/2⌋ : ℚ) / 100

/-- The sampling loop `for (price = start; price <= end; price += step)`.
The source loop is unbounded; with exact arithmetic and a positive step it
pushes exactly 101 values, so the fuel of 102 used below never binds. -/
def payoffLoop (endv step : ℚ) : ℕ → ℚ → List ℚ
  | 0, _ => []
  | n + 1, price =>
    if price ≤ endv then round2 price :: payoffLoop endv step n (price + step)
    else []

/-- `calculatePayoffRange(strategy, currentPrice)`.  The `Infinity` values
arising from an empty leg list disappear at the `Math.max`/`Math.min`
clamps against finite quantities, so the match arm for non-finite values is
unreachable. -/
def calculatePayoffRange (strategy : Strategy) (currentPrice : ℚ) : List ℚ :=
  let strikes := strategy.legs.map fun leg => leg.option.strikePrice
  let minStrike := jsMinList strikes
  let maxStrike := jsMaxList strikes
  match jsMax (jsSub maxStrike minStrike) (.fin (currentPrice * 0.5)),
        jsMin minStrike (.fin currentPrice),
        jsMax maxStrike (.fin currentPrice) with
  | .fin rng, .fin lo, .fin hi =>
    let start := max 0 (lo - rng * 0.3)
    let endv := hi + rng * 0.3
    let step := (endv - start) / 100
    payoffLoop endv step 102 start
  | _, _, _ => []

/-- `calculateStrategyPayoff(strategy, price)`: sum over the legs of the
expiry payoff times signed quantity. -/
def calculateStrategyPayoff (strategy : Strategy) (price : ℚ) : ℚ :=
  strategy.legs.foldl
    (fun total leg =>
      let action : ℚ := if leg.action = "buy" then 1 else -1
      let legPayoff : ℚ :=
        if leg.option.contractType = "call_option" then
          max 0 (price - leg.option.strikePrice)
        else if leg.option.contractType = "put_option" then
          max 0 (leg.option.strikePrice - price)
        else if leg.option.contractType = "futures" then
          price - leg.option.strikePrice
        else 0
      total + legPayoff * leg.quantity * action)
    0

/-- One step of the `findBreakEvenPoints` scan over consecutive samples;
`prev` is the previous `(price, payoff)` sample and `acc` the break-evens
collected so far. -/
def febGo : ℚ × ℚ → List (ℚ × ℚ) → List ℚ → List ℚ
  | _, [], acc => acc
  | prev, curr :: rest, acc =>
    let acc2 :=
      if (prev.2 ≤ 0 ∧ 0 ≤ curr.2) ∨ (0 ≤ prev.2 ∧ curr.2 ≤ 0) then
        let denom := |prev.2| + |curr.2|
        if denom < 1e-6 then acc
        else
          let w := |prev.2| / denom
          let price := round2 (prev.1 + w * (curr.1 - prev.1))
          if acc.any fun p => |p - price| < 0.5 then acc
          else acc ++ [price]
      else acc
    febGo curr rest acc2

/-- `findBreakEvenPoints(payoffData)`; the `Number.isFinite` guard of the
source is always true on rational values. -/
def findBreakEvenPoints : List (ℚ × ℚ) → List ℚ
  | [] => []
  | p :: rest => febGo p rest []

/-- The constructor field `this.riskFreeRate = 0.05`. -/
def riskFreeRate : ℚ := 0.05

/-- `calculateDTE(expirationDate)` with the ambient clock reading
`new Date()` made an explicit `now` argument (both in epoch milliseconds). -/
def calculateDTE (now expirationDate : ℚ) : ℚ :=
  max 0 (⌈(expirationDate - now) / (1000 * 60 * 60 * 24)⌉ : ℚ)

/-- `calculateTimeToExpiry(expirationDate)`: days to expiry over 365. -/
def calculateTimeToExpiry (now expirationDate : ℚ) : ℚ :=
  calculateDTE now expirationDate / 365

/-- The record returned by `calculateOptionMetrics`. -/
structure OptionMetrics where
  price : ℝ
  intrinsic : ℝ
  extrinsic : ℝ
  greeks : Greeks
  dte : ℚ
  timeToExpiry : ℚ

/-- `calculateOptionMetrics(option, currentPrice)`, with the clock explicit. -/
noncomputable def calculateOptionMetrics (now : ℚ) (option : OptionInfo)
    (currentPrice : ℚ) : OptionMetrics :=
  let S : ℝ := (currentPrice : ℝ)
  let K : ℝ := (option.strikePrice : ℝ)
  let T : ℚ := calculateTimeToExpiry now option.expirationDate
  let r : ℝ := (riskFreeRate : ℝ)
  let optionType := if option.contractType = "call_option" then "call" else "put"
  let iv : ℝ := match option.impliedVolatility with
    | some v => if v = 0 then 0.5 else (v : ℝ)
    | none => 0.5
  let marketPrice : ℝ := match option.lastPrice with
    | some v => if v = 0 then blackScholes S K (T : ℝ) r iv optionType else (v : ℝ)
    | none => blackScholes S K (T : ℝ) r iv optionType
  let intrinsic : ℝ := if optionType = "call" then max 0 (S - K) else max 0 (K - S)
  { price := marketPrice
    intrinsic := intrinsic
    extrinsic := marketPrice - intrinsic
    greeks := calculateGreeks S K (T : ℝ) r iv optionType
    dte := calculateDTE now option.expirationDate
    timeToExpiry := T }

/-- One entry of the `legs` array built by `calculateStrategyMetrics`: the
spread option metrics plus the position-scaled fields. -/
structure LegMetrics where
  base : OptionMetrics
  positionDelta : ℝ
  positionGamma : ℝ
  positionTheta : ℝ
  positionVega : ℝ
  positionRho : ℝ
  positionCost : ℝ
  quantity : ℚ
  action : String

/-- The record returned by `calculateStrategyMetrics`. -/
structure StrategyMetrics where
  legs : List LegMetrics
  totalDelta : ℝ
  totalGamma : ℝ
  totalTheta : ℝ
  totalVega : ℝ
  totalRho : ℝ
  totalCost : ℝ
  maxProfit : JSNum
  maxLoss : JSNum
  breakEvenPoints : List ℚ
  payoffData : List (ℚ × ℚ)
  currentPrice : ℚ

/-- `calculateStrategyMetrics(strategy, currentPrice)`, with the clock
explicit.  `maxProfit`/`maxLoss` are `Math.max(...)`/`Math.min(...)` spread
over the sampled payoffs, hence `JSNum` (they are `-Infinity`/`Infinity`
when the payoff sample list is empty). -/
noncomputable def calculateStrategyMetrics (now : ℚ) (strategy : Strategy)
    (currentPrice : ℚ) : StrategyMetrics :=
  let legs := strategy.legs.map fun leg =>
    let metrics := calculateOptionMetrics now leg.option currentPrice
    let positionSize : ℝ := (leg.quantity : ℝ) * (if leg.action = "buy" then 1 else -1)
    { base := metrics
      positionDelta := metrics.greeks.delta * positionSize
      positionGamma := metrics.greeks.gamma * positionSize
      positionTheta := metrics.greeks.theta * positionSize
      positionVega := metrics.greeks.vega * positionSize
      positionRho := metrics.greeks.rho * positionSize
      positionCost := metrics.price * (leg.quantity : ℝ) *
        (if leg.action = "buy" then 1 else -1)
      quantity := leg.quantity
      action := leg.action : LegMetrics }
  let payoffData := (calculatePayoffRange strategy currentPrice).map fun price =>
    (price, calculateStrategyPayoff strategy price)
  let payoffs := payoffData.map fun p => p.2
  { legs := legs
    totalDelta := (legs.map fun l => l.positionDelta).sum
    totalGamma := (legs.map fun l => l.positionGamma).sum
    totalTheta := (legs.map fun l => l.positionTheta).sum
    totalVega := (legs.map fun l => l.positionVega).sum
    totalRho := (legs.map fun l => l.positionRho).sum
    totalCost := (legs.map fun l => l.positionCost).sum
    maxProfit := jsMaxList payoffs
    maxLoss := jsMinList payoffs
    breakEvenPoints := findBreakEvenPoints payoffData
    payoffData := payoffData
    currentPrice := currentPrice }

/-- A strategy made of exactly one long call with strike `K`, quantity 1. -/
def singleCallStrategy (K : ℚ) : Strategy :=
  ⟨[⟨⟨"call_option", K, 0, none, none⟩, 1, "buy"⟩]⟩

/-- C10: a leg whose `contractType` is none of `call_option`, `put_option`
or `futures` contributes exactly 0 to `calculateStrategyPayoff` at every
price: dropping it leaves the payoff unchanged. -/
theorem C10_unknown_leg_contributes_zero (leg : Leg) (rest : List Leg) (price : ℚ)
    (h1 : leg.option.contractType ≠ "call_option")
    (h2 : leg.option.contractType ≠ "put_option")
    (h3 : leg.option.contractType ≠ "futures") :
    calculateStrategyPayoff ⟨leg :: rest⟩ price = calculateStrategyPayoff ⟨rest⟩ price := by
  simp [calculateStrategyPayoff, h1, h2, h3]

/-- C10 witness: a quantity-2 leg of unknown kind `spread` adds nothing. -/
theorem C10_unknown_leg_contributes_zero_witness :
    calculateStrategyPayoff ⟨[⟨⟨"spread", 100, 0, none, none⟩, 2, "buy"⟩]⟩ 50 =
      calculateStrategyPayoff ⟨[]⟩ 50 :=
  C10_unknown_leg_contributes_zero ⟨⟨"spread", 100, 0, none, none⟩, 2, "buy"⟩ [] 50
    (by decide) (by decide) (by decide)

/-! ### The sampling grid of `calculatePayoffRange` -/

theorem payoffLoop_past (endv step p : ℚ) (h : ¬ p ≤ endv) :
    ∀ fuel, payoffLoop endv step fuel p = []
  | 0 => rfl
  | fuel + 1 => by simp only [payoffLoop]; rw [if_neg h]

theorem payoffLoop_eq (endv step : ℚ) :
    ∀ (n fuel : ℕ) (p : ℚ), n < fuel → p + n * step ≤ endv →
      endv < p + (n + 1) * step →
      payoffLoop endv step fuel p =
        (List.range (n + 1)).map fun k : ℕ => round2 (p + (k : ℚ) * step) := by
  intro n
  induction n with
  | zero =>
    intro fuel p hf h1 h2
    obtain ⟨f, rfl⟩ : ∃ f, fuel = f + 1 := ⟨fuel - 1, by omega⟩
    simp only [payoffLoop]
    have hp : p ≤ endv := by push_cast at h1; linarith
    rw [if_pos hp]
    have h2' : ¬ (p + step ≤ endv) := by
      push_cast at h2
      push_neg
      linarith
    rw [payoffLoop_past endv step (p + step) h2' f]
    rw [show List.range 1 = [0] from rfl]
    norm_num
  | succ n ih =>
    intro fuel p hf h1 h2
    obtain ⟨f, rfl⟩ : ∃ f, fuel = f + 1 := ⟨fuel - 1, by omega⟩
    have hc : (0:ℚ) ≤ (n:ℚ) := Nat.cast_nonneg n
    have hstep : 0 < step := by
      push_cast at h1 h2
      nlinarith
    simp only [payoffLoop]
    have hp : p ≤ endv := by
      push_cast at h1
      nlinarith
    rw [if_pos hp]
    have hh1 : (p + step) + (n:ℚ) * step ≤ endv := by
      push_cast at h1
      ring_nf at h1 ⊢
      linarith
    have hh2 : endv < (p + step) + ((n:ℚ) + 1) * step := by
      push_cast at h2
      ring_nf at h2 ⊢
      linarith
    rw [ih f (p + step) (by omega) (by push_cast; linarith [hh1]) (by push_cast; linarith [hh2])]
    conv_rhs => rw [List.range_succ_eq_map]
    simp only [List.map_cons, List.map_map]
    congr 1
    · norm_num
    · refine List.map_congr_left fun k _ => ?_
      simp only [Function.comp_apply]
      congr 1
      push_cast [Nat.succ_eq_add_one]
      ring

theorem jsList_fold_min (l : List ℚ) : ∀ q : ℚ,
    l.foldl (fun a x => jsMin a (.fin x)) (.fin q) = .fin (l.foldl min q) := by
  induction l with
  | nil => intro q; rfl
  | cons b tl ih =>
    intro q
    simp only [List.foldl_cons]
    exact ih (min q b)

theorem jsList_fold_max (l : List ℚ) : ∀ q : ℚ,
    l.foldl (fun a x => jsMax a (.fin x)) (.fin q) = .fin (l.foldl max q) := by
  induction l with
  | nil => intro q; rfl
  | cons b tl ih =>
    intro q
    simp only [List.foldl_cons]
    exact ih (max q b)

theorem jsMinList_cons (a : ℚ) (l : List ℚ) :
    jsMinList (a :: l) = .fin (l.foldl min a) := by
  simp only [jsMinList, List.foldl_cons]
  exact jsList_fold_min l a

theorem jsMaxList_cons (a : ℚ) (l : List ℚ) :
    jsMaxList (a :: l) = .fin (l.foldl max a) := by
  simp only [jsMaxList, List.foldl_cons]
  exact jsList_fold_max l a

theorem foldl_min_le (l : List ℚ) : ∀ a : ℚ, l.foldl min a ≤ a := by
  induction l with
  | nil => intro a; exact le_rfl
  | cons b tl ih =>
    intro a
    simp only [List.foldl_cons]
    exact (ih (min a b)).trans (min_le_left a b)

theorem le_foldl_max (l : List ℚ) : ∀ a : ℚ, a ≤ l.foldl max a := by
  induction l with
  | nil => intro a; exact le_rfl
  | cons b tl ih =>
    intro a
    simp only [List.foldl_cons]
    exact (le_max_left a b).trans (ih (max a b))

/-- C7 amended: for a strategy with at least one leg and a positive spot
`S`, the grid is 101 samples (100 equal steps) of the window whose start is
clamped below at 0 — `[max 0 (min minStrike S - 0.3*range),
max maxStrike S + 0.3*range]` with `range = max (maxStrike - minStrike)
(0.5*S)` — each sample rounded to 2 decimals. -/
theorem C7_payoff_range_amended (leg : Leg) (rest : List Leg) (S : ℚ) (hS : 0 < S) :
    calculatePayoffRange ⟨leg :: rest⟩ S =
      (List.range 101).map fun k : ℕ =>
        let mn := (rest.map fun l => l.option.strikePrice).foldl min leg.option.strikePrice
        let mx := (rest.map fun l => l.option.strikePrice).foldl max leg.option.strikePrice
        let rng := max (mx - mn) (S * 0.5)
        let start := max 0 (min mn S - rng * 0.3)
        let endv := max mx S + rng * 0.3
        round2 (start + (k : ℚ) * ((endv - start) / 100)) := by
  simp only [calculatePayoffRange, List.map_cons, jsMinList_cons, jsMaxList_cons, jsSub,
    jsMax, jsMin]
  set mn := (rest.map fun l => l.option.strikePrice).foldl min leg.option.strikePrice with hmn
  set mx := (rest.map fun l => l.option.strikePrice).foldl max leg.option.strikePrice with hmx
  set rng := max (mx - mn) (S * 0.5) with hrng
  set start := max 0 (min mn S - rng * 0.3) with hstart
  set endv := max mx S + rng * 0.3 with hendv
  clear_value mn mx rng start endv
  have hrng_pos : 0 < rng :=
    hrng ▸ lt_of_lt_of_le (by linarith) (le_max_right (mx - mn) (S * 0.5))
  have hlt : start < endv := by
    rw [hstart, hendv]
    apply max_lt
    · have h1 : S ≤ max mx S := le_max_right mx S
      linarith
    · have h1 : min mn S ≤ S := min_le_right mn S
      have h2 : S ≤ max mx S := le_max_right mx S
      linarith
  have hstep : 0 < (endv - start) / 100 := div_pos (by linarith) (by norm_num)
  rw [payoffLoop_eq endv ((endv - start) / 100) 100 102 start (by norm_num)
    (by push_cast; ring_nf; linarith) (by push_cast; ring_nf; linarith)]

/-- The sampling grid exactly as the claim for C7 words it (refinement
reference, for comparison with `calculatePayoffRange`): window
`[min(minStrike, S) - 0.3*range, max(maxStrike, S) + 0.3*range]` with
`range = max(maxStrike - minStrike, 0.5*S)`, 100 equal steps, each sample
rounded to 2 decimals — and no clamping of the window start at 0. -/
def specPayoffRange (strategy : Strategy) (currentPrice : ℚ) : List ℚ :=
  let strikes := strategy.legs.map fun leg => leg.option.strikePrice
  let minStrike := strikes.foldl min strikes.headI
  let maxStrike := strikes.foldl max strikes.headI
  let rng := max (maxStrike - minStrike) (currentPrice * 0.5)
  let start := min minStrike currentPrice - rng * 0.3
  let endv := max maxStrike currentPrice + rng * 0.3
  (List.range 101).map fun k : ℕ => round2 (start + (k : ℚ) * ((endv - start) / 100))

set_option maxRecDepth 2400 in
/-- C7 counterexample: for a single leg with strike 1 at spot 10 the code
clamps the window start at 0 (`Math.max(0, ...)`), so the produced grid
differs from the claimed window, whose start would be `-0.5`. -/
theorem C7_payoff_range_counterexample :
    calculatePayoffRange ⟨[⟨⟨"call_option", 1, 0, none, none⟩, 1, "buy"⟩]⟩ 10 ≠
      specPayoffRange ⟨[⟨⟨"call_option", 1, 0, none, none⟩, 1, "buy"⟩]⟩ 10 :=
  of_decide_eq_true (by with_unfolding_all rfl)

/-- C7 witness: the amended description evaluated for a one-leg strategy
with strike 1 at spot 10. -/
theorem C7_payoff_range_amended_witness :
    calculatePayoffRange ⟨[⟨⟨"call_option", 1, 0, none, none⟩, 1, "buy"⟩]⟩ 10 =
      (List.range 101).map (fun k : ℕ =>
        round2 (max 0 (min (1:ℚ) 10 - max ((1:ℚ) - 1) (10 * 0.5) * 0.3) +
          (k : ℚ) * ((max (1:ℚ) 10 + max ((1:ℚ) - 1) (10 * 0.5) * 0.3 -
            max 0 (min (1:ℚ) 10 - max ((1:ℚ) - 1) (10 * 0.5) * 0.3)) / 100))) :=
  C7_payoff_range_amended ⟨⟨"call_option", 1, 0, none, none⟩, 1, "buy"⟩ [] 10 (by norm_num)

/-! ### Break-even points of a single long call -/

theorem singleCall_payoff (K p : ℚ) :
    calculateStrategyPayoff (singleCallStrategy K) p = max 0 (p - K) := by
  simp [calculateStrategyPayoff, singleCallStrategy]

theorem round2_int_div (m : ℤ) : round2 ((m : ℚ) / 100) = (m : ℚ) / 100 := by
  unfold round2
  rw [div_mul_cancel₀ _ (by norm_num : (100:ℚ) ≠ 0), Int.floor_int_add]
  norm_num

theorem round2_idem (q : ℚ) : round2 (round2 q) = round2 q :=
  round2_int_div ⌊q * 100 + 1/2⌋

theorem payoffLoop_mem_round2 (endv step : ℚ) :
    ∀ (fuel : ℕ) (p x : ℚ), x ∈ payoffLoop endv step fuel p → round2 x = x := by
  intro fuel
  induction fuel with
  | zero => intro p x hx; exact absurd hx (List.not_mem_nil x)
  | succ n ih =>
    intro p x hx
    simp only [payoffLoop] at hx
    split_ifs at hx with h
    · rcases List.mem_cons.mp hx with h1 | h1
      · rw [h1]; exact round2_idem p
      · exact ih _ x h1
    · exact absurd hx (List.not_mem_nil x)

theorem payoffRange_mem_round2 (strategy : Strategy) (S x : ℚ)
    (hx : x ∈ calculatePayoffRange strategy S) : round2 x = x := by
  simp only [calculatePayoffRange] at hx
  set a := jsMax (jsSub (jsMaxList (strategy.legs.map fun leg => leg.option.strikePrice))
    (jsMinList (strategy.legs.map fun leg => leg.option.strikePrice)))
    (JSNum.fin (S * 0.5)) with ha
  set b := jsMin (jsMinList (strategy.legs.map fun leg => leg.option.strikePrice))
    (JSNum.fin S) with hb
  set c := jsMax (jsMaxList (strategy.legs.map fun leg => leg.option.strikePrice))
    (JSNum.fin S) with hc
  clear_value a b c
  rcases a with _ | _ | ra | _ <;> rcases b with _ | _ | rb | _ <;>
    rcases c with _ | _ | rc | _ <;>
    first
      | exact absurd hx (List.not_mem_nil x)
      | exact payoffLoop_mem_round2 _ _ _ _ x hx

theorem febGo_pos_tail (rest : List (ℚ × ℚ)) :
    ∀ (prev : ℚ × ℚ) (acc : List ℚ), 0 < prev.2 → (∀ q ∈ rest, 0 < q.2) →
      febGo prev rest acc = acc := by
  induction rest with
  | nil => intro prev acc _ _; rfl
  | cons curr tl ih =>
    intro prev acc hprev hrest
    have hcurr : 0 < curr.2 := hrest curr (List.mem_cons_self curr tl)
    simp only [febGo]
    rw [if_neg]
    · exact ih curr acc hcurr fun q hq => hrest q (List.mem_cons_of_mem curr hq)
    · rintro (⟨h1, _⟩ | ⟨_, h2⟩) <;> linarith

theorem febGo_flat_then_pos (f : ℚ → ℚ) (B : List ℚ)
    (hB : ∀ p ∈ B, (1e-6 : ℚ) ≤ f p) (hBne : B ≠ []) :
    ∀ (A : List ℚ) (a : ℚ), (∀ p ∈ A, f p = 0) →
      febGo (a, 0) ((A ++ B).map fun p => (p, f p)) [] = [round2 (A.getLastD a)] := by
  intro A
  induction A with
  | nil =>
    intro a _
    obtain ⟨b, B', rfl⟩ : ∃ b B', B = b :: B' := by
      cases B with
      | nil => exact absurd rfl hBne
      | cons x xs => exact ⟨x, xs, rfl⟩
    have hb : (1e-6 : ℚ) ≤ f b := hB b (List.mem_cons_self b B')
    have habs : |f b| = f b := abs_of_pos (by linarith)
    simp only [List.nil_append, List.map_cons, febGo]
    dsimp only
    rw [abs_zero, zero_add, habs, zero_div, zero_mul, add_zero]
    rw [if_pos (Or.inl ⟨le_refl 0, by linarith⟩)]
    rw [if_neg (by push_neg; linarith)]
    rw [if_neg (by simp)]
    exact febGo_pos_tail _ (b, f b) [round2 a] (by dsimp only; linarith)
      (by
        intro q hq
        obtain ⟨p, hp, rfl⟩ := List.mem_map.mp hq
        have := hB p (List.mem_cons_of_mem b hp)
        dsimp only
        linarith)
  | cons a2 A' ih =>
    intro a hA
    have hfa2 : f a2 = 0 := hA a2 (List.mem_cons_self a2 A')
    rw [List.cons_append, List.map_cons]
    simp only [febGo]
    dsimp only
    rw [hfa2]
    rw [if_pos (Or.inl ⟨le_refl 0, le_refl 0⟩)]
    rw [if_pos (by norm_num)]
    rw [List.getLastD_cons]
    exact ih a2 fun p hp => hA p (List.mem_cons_of_mem a2 hp)

/-- C6 amended: for a single long call (quantity 1) with strike `K > 0` and
spot `S > 0`, whenever the sampled grid splits as `A ++ B` with every price
in `A` at most `K` and every price in `B` at least `K + 1e-6` (so the
crossing is detectable by the `1e-6` guard), with both parts non-empty, the
computation reports exactly one break-even point, namely the largest
sampled price not exceeding `K` — one grid step below the strike in
general, not the strike itself. -/
theorem C6_break_even_amended (S K : ℚ) (hS : 0 < S) (hK : 0 < K)
    (A B : List ℚ) (hAne : A ≠ []) (hBne : B ≠ [])
    (hAB : calculatePayoffRange (singleCallStrategy K) S = A ++ B)
    (hA : ∀ p ∈ A, p ≤ K) (hB : ∀ p ∈ B, K + 1e-6 ≤ p) :
    findBreakEvenPoints ((calculatePayoffRange (singleCallStrategy K) S).map fun p =>
        (p, calculateStrategyPayoff (singleCallStrategy K) p)) =
      [A.getLast hAne] := by
  obtain ⟨a, A', rfl⟩ : ∃ a A', A = a :: A' := by
    cases A with
    | nil => exact absurd rfl hAne
    | cons x xs => exact ⟨x, xs, rfl⟩
  have hfcong : ∀ p ∈ (a :: A') ++ B,
      (p, calculateStrategyPayoff (singleCallStrategy K) p) = (p, max 0 (p - K)) :=
    fun p _ => by rw [singleCall_payoff]
  rw [hAB, List.map_congr_left hfcong]
  rw [List.cons_append, List.map_cons]
  have hfa : max 0 (a - K) = 0 := by
    have := hA a (List.mem_cons_self a A')
    exact max_eq_left (by linarith)
  rw [show findBreakEvenPoints ((a, max 0 (a - K)) ::
      (A' ++ B).map fun p => (p, max 0 (p - K))) =
      febGo (a, max 0 (a - K)) ((A' ++ B).map fun p => (p, max 0 (p - K))) [] from rfl]
  rw [hfa]
  have hBpos : ∀ p ∈ B, (1e-6 : ℚ) ≤ max 0 (p - K) := by
    intro p hp
    have := hB p hp
    exact le_trans (by linarith) (le_max_right 0 (p - K))
  have hApos : ∀ p ∈ A', max 0 (p - K) = 0 := by
    intro p hp
    have := hA p (List.mem_cons_of_mem a hp)
    exact max_eq_left (by linarith)
  have hres := febGo_flat_then_pos (fun p => max 0 (p - K)) B hBpos hBne A' a hApos
  have hlast_eq : A'.getLastD a = (a :: A').getLast (List.cons_ne_nil a A') := by
    rw [← List.getLastD_cons a a A', List.getLastD_eq_getLast?,
      List.getLast?_eq_getLast _ (List.cons_ne_nil a A')]
    rfl
  have hmem : (a :: A').getLast (List.cons_ne_nil a A') ∈
      calculatePayoffRange (singleCallStrategy K) S := by
    rw [hAB]
    exact List.mem_append_left B (List.getLast_mem _)
  have hr2 := payoffRange_mem_round2 _ _ _ hmem
  calc febGo (a, 0) ((A' ++ B).map fun p => (p, max 0 (p - K))) []
      = [round2 (A'.getLastD a)] := hres
    _ = [(a :: A').getLast hAne] := by rw [hlast_eq, hr2]

/-- The grid `calculatePayoffRange (singleCallStrategy 100) 101` written
out: start 84.85, step 0.313, 101 samples, each rounded to 2 decimals. -/
def c6Grid : List ℚ := [1697/20, 2129/25, 2137/25, 8579/100, 861/10, 4321/50, 8673/100, 2176/25, 1747/20, 8767/100, 4399/50, 8829/100, 8861/100, 2223/25, 8923/100, 1791/20, 4493/50, 9017/100, 2262/25, 454/5, 9111/100, 4571/50, 4587/50, 1841/20, 2309/25, 2317/25, 9299/100, 933/10, 9361/100, 9393/100, 2356/25, 1891/20, 9487/100, 4759/50, 9549/100, 9581/100, 2403/25, 9643/100, 4837/50, 4853/50, 9737/100, 2442/25, 98, 9831/100, 4931/50, 4947/50, 397/4, 2489/25, 9987/100, 10019/100, 201/2, 10081/100, 10113/100, 2536/25, 407/4, 10207/100, 5119/50, 10269/100, 103, 2583/25, 10363/100, 5197/50, 5213/50, 10457/100, 2622/25, 526/5, 10551/100, 5291/50, 10613/100, 2129/20, 2669/25, 10707/100, 10739/100, 1077/10, 10801/100, 10833/100, 2716/25, 2179/20, 5463/50, 5479/50, 10989/100, 551/5, 2763/25, 11083/100, 5557/50, 5573/50, 11177/100, 2802/25, 11239/100, 11271/100, 5651/50, 11333/100, 2273/20, 2849/25, 11427/100, 11459/100, 1149/10, 11521/100, 2888/25, 2896/25, 2323/20]

/-- The samples of `c6Grid` that are at most the strike 100. -/
def c6A : List ℚ := [1697/20, 2129/25, 2137/25, 8579/100, 861/10, 4321/50, 8673/100, 2176/25, 1747/20, 8767/100, 4399/50, 8829/100, 8861/100, 2223/25, 8923/100, 1791/20, 4493/50, 9017/100, 2262/25, 454/5, 9111/100, 4571/50, 4587/50, 1841/20, 2309/25, 2317/25, 9299/100, 933/10, 9361/100, 9393/100, 2356/25, 1891/20, 9487/100, 4759/50, 9549/100, 9581/100, 2403/25, 9643/100, 4837/50, 4853/50, 9737/100, 2442/25, 98, 9831/100, 4931/50, 4947/50, 397/4, 2489/25, 9987/100]

/-- The samples of `c6Grid` that exceed the strike 100. -/
def c6B : List ℚ := [10019/100, 201/2, 10081/100, 10113/100, 2536/25, 407/4, 10207/100, 5119/50, 10269/100, 103, 2583/25, 10363/100, 5197/50, 5213/50, 10457/100, 2622/25, 526/5, 10551/100, 5291/50, 10613/100, 2129/20, 2669/25, 10707/100, 10739/100, 1077/10, 10801/100, 10833/100, 2716/25, 2179/20, 5463/50, 5479/50, 10989/100, 551/5, 2763/25, 11083/100, 5557/50, 5573/50, 11177/100, 2802/25, 11239/100, 11271/100, 5651/50, 11333/100, 2273/20, 2849/25, 11427/100, 11459/100, 1149/10, 11521/100, 2888/25, 2896/25, 2323/20]

set_option maxRecDepth 4000 in
set_option maxHeartbeats 4000000 in
theorem c6Grid_eval : calculatePayoffRange (singleCallStrategy 100) 101 = c6Grid := by
  norm_num [calculatePayoffRange, singleCallStrategy, jsMinList, jsMaxList, jsMin, jsMax,
    jsSub, payoffLoop, round2, c6Grid]

theorem c6Grid_split : c6Grid = c6A ++ c6B := rfl

set_option maxRecDepth 4000 in
set_option maxHeartbeats 4000000 in
/-- C6 counterexample: for the single long call with strike `K = 100` at
spot `S = 101` the grid contains no sample equal to 100; the crossing pair
is `(99.87, 0)`, `(100.19, 0.19)` and the interpolation weight is 0, so the
single reported break-even is the left sample `99.87`, not the strike. -/
theorem C6_break_even_counterexample :
    findBreakEvenPoints ((calculatePayoffRange (singleCallStrategy 100) 101).map fun p =>
        (p, calculateStrategyPayoff (singleCallStrategy 100) p)) = [9987/100] ∧
      ¬ ((9987 : ℚ)/100 = 100) := by
  constructor
  · rw [c6Grid_eval]
    norm_num [c6Grid, findBreakEvenPoints, febGo, calculateStrategyPayoff,
      singleCallStrategy, round2, abs_eq_max_neg]
  · norm_num

set_option maxRecDepth 4000 in
set_option maxHeartbeats 4000000 in
/-- C6 witness: the amended statement applied at `K = 100`, `S = 101` with
the grid split at the strike; the reported point is the largest sample not
exceeding the strike, `99.87`. -/
theorem C6_break_even_amended_witness :
    findBreakEvenPoints ((calculatePayoffRange (singleCallStrategy 100) 101).map fun p =>
        (p, calculateStrategyPayoff (singleCallStrategy 100) p)) = [9987/100] := by
  have h := C6_break_even_amended 101 100 (by norm_num) (by norm_num) c6A c6B
    (by simp [c6A]) (by simp [c6B])
    (c6Grid_eval.trans c6Grid_split)
    (by norm_num [c6A, List.forall_mem_cons])
    (by norm_num [c6B, List.forall_mem_cons])
  rw [h]
  rfl

/-! ### The empty strategy is handled silently -/

theorem foldl_max_zero (l : List ℚ) (h : ∀ x ∈ l, x = 0) : l.foldl max 0 = 0 := by
  induction l with
  | nil => rfl
  | cons a tl ih =>
    have ha : a = 0 := h a (List.mem_cons_self a tl)
    simp only [List.foldl_cons, ha, max_self]
    exact ih fun x hx => h x (List.mem_cons_of_mem a hx)

theorem foldl_min_zero (l : List ℚ) (h : ∀ x ∈ l, x = 0) : l.foldl min 0 = 0 := by
  induction l with
  | nil => rfl
  | cons a tl ih =>
    have ha : a = 0 := h a (List.mem_cons_self a tl)
    simp only [List.foldl_cons, ha, min_self]
    exact ih fun x hx => h x (List.mem_cons_of_mem a hx)

theorem jsMaxList_zero_of (l : List ℚ) (hne : l ≠ []) (h : ∀ x ∈ l, x = 0) :
    jsMaxList l = .fin 0 := by
  obtain ⟨a, tl, rfl⟩ : ∃ a tl, l = a :: tl := by
    cases l with
    | nil => exact absurd rfl hne
    | cons x xs => exact ⟨x, xs, rfl⟩
  rw [jsMaxList_cons, h a (List.mem_cons_self a tl)]
  rw [foldl_max_zero tl fun x hx => h x (List.mem_cons_of_mem a hx)]

theorem jsMinList_zero_of (l : List ℚ) (hne : l ≠ []) (h : ∀ x ∈ l, x = 0) :
    jsMinList l = .fin 0 := by
  obtain ⟨a, tl, rfl⟩ : ∃ a tl, l = a :: tl := by
    cases l with
    | nil => exact absurd rfl hne
    | cons x xs => exact ⟨x, xs, rfl⟩
  rw [jsMinList_cons, h a (List.mem_cons_self a tl)]
  rw [foldl_min_zero tl fun x hx => h x (List.mem_cons_of_mem a hx)]

theorem febGo_zeros_acc : ∀ (rest : List (ℚ × ℚ)), (∀ q ∈ rest, q.2 = 0) →
    ∀ (prev : ℚ × ℚ) (acc : List ℚ), prev.2 = 0 → febGo prev rest acc = acc := by
  intro rest
  induction rest with
  | nil => intro _ prev acc _; rfl
  | cons curr tl ih =>
    intro h prev acc hprev
    have hcurr : curr.2 = 0 := h curr (List.mem_cons_self curr tl)
    simp only [febGo]
    rw [if_pos (Or.inl ⟨hprev.le, hcurr.ge⟩)]
    rw [if_pos (by rw [hprev, hcurr]; norm_num)]
    exact ih (fun q hq => h q (List.mem_cons_of_mem curr hq)) curr acc hcurr

theorem findBreakEven_zeros (L : List ℚ) :
    findBreakEvenPoints (L.map fun p => (p, (0:ℚ))) = [] := by
  cases L with
  | nil => rfl
  | cons a tl =>
    simp only [List.map_cons, findBreakEvenPoints]
    refine febGo_zeros_acc _ ?_ _ [] rfl
    intro q hq
    obtain ⟨p, _, rfl⟩ := List.mem_map.mp hq
    rfl

theorem payoffLoop_cons_ne_nil (endv step p : ℚ) (n : ℕ) (h : p ≤ endv) :
    payoffLoop endv step (n + 1) p ≠ [] := by
  simp only [payoffLoop]
  rw [if_pos h]
  exact List.cons_ne_nil _ _

theorem emptyRange_ne_nil (S : ℚ) (hS : 0 < S) : calculatePayoffRange ⟨[]⟩ S ≠ [] := by
  simp only [calculatePayoffRange, List.map_nil, jsMinList, jsMaxList, List.foldl_nil,
    jsSub, jsMax, jsMin]
  rw [show (102:ℕ) = 101 + 1 from rfl]
  apply payoffLoop_cons_ne_nil
  have h1 : (0:ℚ) ≤ S + S * 0.5 * 0.3 := by linarith
  have h2 : S - S * 0.5 * 0.3 ≤ S + S * 0.5 * 0.3 := by linarith
  exact max_le h1 h2

/-- Empty strategies are handled silently, not by failing: the metrics
record has zero max profit and loss, no break-even points, no legs and
zero total cost. -/
theorem emptyStrategy_silent (now S : ℚ) (hS : 0 < S) :
    (calculateStrategyMetrics now ⟨[]⟩ S).maxProfit = JSNum.fin 0 ∧
      (calculateStrategyMetrics now ⟨[]⟩ S).maxLoss = JSNum.fin 0 ∧
      (calculateStrategyMetrics now ⟨[]⟩ S).breakEvenPoints = [] ∧
      (calculateStrategyMetrics now ⟨[]⟩ S).legs = [] ∧
      (calculateStrategyMetrics now ⟨[]⟩ S).totalCost = 0 := by
  have hgrid := emptyRange_ne_nil S hS
  have hpay : ∀ p : ℚ, calculateStrategyPayoff ⟨[]⟩ p = 0 := fun p => rfl
  simp only [calculateStrategyMetrics, List.map_nil, List.map_map]
  refine ⟨?_, ?_, ?_, by trivial, by simp⟩
  · apply jsMaxList_zero_of
    · simp [hgrid]
    · intro x hx
      obtain ⟨p, _, rfl⟩ := List.mem_map.mp hx
      exact hpay p
  · apply jsMinList_zero_of
    · simp [hgrid]
    · intro x hx
      obtain ⟨p, _, rfl⟩ := List.mem_map.mp hx
      exact hpay p
  · have : ((calculatePayoffRange ⟨[]⟩ S).map fun price =>
        (price, calculateStrategyPayoff ⟨[]⟩ price)) =
        (calculatePayoffRange ⟨[]⟩ S).map fun price => (price, (0:ℚ)) := by
      exact List.map_congr_left fun p _ => by rw [hpay]
    rw [this, findBreakEven_zeros]

/-- C8 counterexample: at spot 100 the empty strategy does not fail — it
silently returns the degenerate record with `maxProfit = maxLoss = 0`, no
break-even points, no legs and zero cost. -/
theorem C8_empty_strategy_counterexample :
    (calculateStrategyMetrics 0 ⟨[]⟩ 100).maxProfit = JSNum.fin 0 ∧
      (calculateStrategyMetrics 0 ⟨[]⟩ 100).maxLoss = JSNum.fin 0 ∧
      (calculateStrategyMetrics 0 ⟨[]⟩ 100).breakEvenPoints = [] ∧
      (calculateStrategyMetrics 0 ⟨[]⟩ 100).legs = [] ∧
      (calculateStrategyMetrics 0 ⟨[]⟩ 100).totalCost = 0 :=
  emptyStrategy_silent 0 100 (by norm_num)

/-- C8 amended: `calculateStrategyMetrics` on an empty leg list does not
fail; for every positive spot it silently returns the degenerate record
with `maxProfit = maxLoss = 0` (the 101 payoff samples are all zero), an
empty break-even list, no legs and zero totals. -/
theorem C8_empty_strategy_amended (now S : ℚ) (hS : 0 < S) :
    (calculateStrategyMetrics now ⟨[]⟩ S).maxProfit = JSNum.fin 0 ∧
      (calculateStrategyMetrics now ⟨[]⟩ S).maxLoss = JSNum.fin 0 ∧
      (calculateStrategyMetrics now ⟨[]⟩ S).breakEvenPoints = [] ∧
      (calculateStrategyMetrics now ⟨[]⟩ S).legs = [] ∧
      (calculateStrategyMetrics now ⟨[]⟩ S).totalCost = 0 :=
  emptyStrategy_silent now S hS

/-- C8 amended witness at spot 50. -/
theorem C8_empty_strategy_amended_witness :
    (calculateStrategyMetrics 0 ⟨[]⟩ 50).maxProfit = JSNum.fin 0 ∧
      (calculateStrategyMetrics 0 ⟨[]⟩ 50).maxLoss = JSNum.fin 0 ∧
      (calculateStrategyMetrics 0 ⟨[]⟩ 50).breakEvenPoints = [] ∧
      (calculateStrategyMetrics 0 ⟨[]⟩ 50).legs = [] ∧
      (calculateStrategyMetrics 0 ⟨[]⟩ 50).totalCost = 0 :=
  C8_empty_strategy_amended 0 50 (by norm_num)

/-! ### Dependence of the metric functions on the ambient clock -/

/-- C9 counterexample: two invocations of `calculateOptionMetrics` with
identical option and price arguments but different ambient clock readings
(day 0 and day 5, for an option expiring at day 10) give different
results — the day count differs — so the function is not independent of
the environment. -/
theorem C9_time_dependence_counterexample :
    calculateOptionMetrics 0 ⟨"call_option", 100, 864000000, some 5, some (1/2)⟩ 100 ≠
      calculateOptionMetrics 432000000 ⟨"call_option", 100, 864000000, some 5, some (1/2)⟩ 100 := by
  intro h
  have hd := congrArg OptionMetrics.dte h
  have h1 : (calculateOptionMetrics 0
      ⟨"call_option", 100, 864000000, some 5, some (1/2)⟩ 100).dte = 10 := by
    simp only [calculateOptionMetrics]
    norm_num [calculateDTE]
  have h2 : (calculateOptionMetrics 432000000
      ⟨"call_option", 100, 864000000, some 5, some (1/2)⟩ 100).dte = 5 := by
    simp only [calculateOptionMetrics]
    norm_num [calculateDTE]
  rw [h1, h2] at hd
  norm_num at hd

/-- C9 amended: `blackScholes`, `calculateGreeks` and
`calculateImpliedVolatility` read nothing but their arguments, while
`calculateOptionMetrics` and `calculateStrategyMetrics` depend on the
ambient clock — but only through the day count `calculateDTE`: two clock
readings that yield the same day counts produce identical outputs. -/
theorem C9_pricing_determinism_amended (now now2 : ℚ) (o : OptionInfo)
    (strat : Strategy) (S : ℚ)
    (h : ∀ e : ℚ, calculateDTE now e = calculateDTE now2 e) :
    calculateOptionMetrics now o S = calculateOptionMetrics now2 o S ∧
      calculateStrategyMetrics now strat S = calculateStrategyMetrics now2 strat S := by
  have hopt : ∀ (o' : OptionInfo) (T : ℚ),
      calculateOptionMetrics now o' T = calculateOptionMetrics now2 o' T := by
    intro o' T
    simp only [calculateOptionMetrics, calculateTimeToExpiry, h]
  refine ⟨hopt o S, ?_⟩
  simp only [calculateStrategyMetrics, hopt]

/-- C9 amended witness: two equal clock readings trivially give equal day
counts, hence equal outputs. -/
theorem C9_pricing_determinism_amended_witness :
    calculateOptionMetrics 0 ⟨"put_option", 10, 0, none, none⟩ 50 =
        calculateOptionMetrics 0 ⟨"put_option", 10, 0, none, none⟩ 50 ∧
      calculateStrategyMetrics 0 ⟨[]⟩ 50 = calculateStrategyMetrics 0 ⟨[]⟩ 50 :=
  C9_pricing_determinism_amended 0 0 ⟨"put_option", 10, 0, none, none⟩ ⟨[]⟩ 50
    fun e => rfl
